import Mathlib

/-!
Verification of the vmregex regular-expression engine
(parser.rs, codegen.rs, machine.rs).

The Rust code is shallowly embedded: `usize` values are `Nat` together with
an explicit `USIZE_MAX` bound at every `checked_add`, `Vec<T>` is `List T`
(push appends at the tail, pop takes the last element, exactly as in Rust),
fallible functions return `Except`, and the recursive backtracking
interpreter is given fuel (one unit per loop iteration / recursive call),
so that `isMatching ... fuel = some r` states that the Rust recursion
reaches the answer `r`, and `(∀ fuel, isMatching ... fuel = none)` states
that it diverges.
-/

/-- Largest value of a 64-bit `usize`. -/
def USIZE_MAX : Nat := 2 ^ 64 - 1

/-- Model of `usize::checked_add(1)`: `none` exactly on overflow. On the
`usize` domain `n ≤ USIZE_MAX` this is exactly Rust's behavior (`none`
iff `n = USIZE_MAX`), and it keeps the model closed under increments:
a successful increment always yields a value that is still `≤ USIZE_MAX`. -/
def checkedAdd1 (n : Nat) : Option Nat :=
  if n + 1 ≤ USIZE_MAX then some (n + 1) else none

/-- The AST of parser.rs. The `Dot` constructor is required by codegen.rs,
whose `expr` matches on `Ast::Dot` (and whose tests build it), even though
the `enum Ast` declaration in parser.rs omits it and `parse` never
produces it. -/
inductive Ast where
  | Char (c : Char)
  | Concat (xs : List Ast)
  | Or (lhs rhs : Ast)
  | Question (e : Ast)
  | Star (e : Ast)
  | Plus (e : Ast)
  | Dot

/-- `ParseError` from parser.rs. -/
inductive ParseError where
  | MissingOperand
  | UnclosedParenthesis
  | UnexpectedParenthesis
  | InvalidEscape (c : Char)
  | Empty
deriving DecidableEq

/-- The parser's working context (struct `Context` in parser.rs). -/
structure Context where
  concat : List Ast
  concat_or : List Ast
  stack : List (List Ast × List Ast)

/-- `append_concat` from parser.rs: collapse the concatenation buffer into a
single node (bare if length 1) and push it onto the alternation buffer. -/
def append_concat (ctx : Context) : Context :=
  if ctx.concat.length = 1 then
    { ctx with concat := [], concat_or := ctx.concat_or ++ ctx.concat }
  else
    { ctx with concat := [], concat_or := ctx.concat_or ++ [Ast.Concat ctx.concat] }

/-- `or_ast` from parser.rs: fold the alternation buffer into one AST,
right-associatively. -/
def or_ast (concat_or : List Ast) : Option Ast :=
  match concat_or.getLast? with
  | none => none
  | some ast =>
    let rest := concat_or.dropLast
    if rest.isEmpty then some ast
    else some (rest.reverse.foldl (fun acc operand => Ast.Or operand acc) ast)

/-- Whether `c` is one of the escapable metacharacters of parser.rs
(`matches!(c, '*' | '+' | '\\' | '?' | '(' | ')' | '|')`). -/
def isEscapable (c : Char) : Bool :=
  c = '*' || c = '+' || c = '\\' || c = '?' || c = '(' || c = ')' || c = '|'

/-- The character-scanning loop of `parse` in parser.rs. The `Bool`
argument is the `escaping` flag. Note that, as in the source, a trailing
backslash leaves the loop with `escaping = true` and the flag is simply
dropped. -/
def parseLoop : List Char → Bool → Context → Except ParseError Context
  | [], _, ctx => .ok ctx
  | c :: rest, true, ctx =>
    if isEscapable c then
      parseLoop rest false { ctx with concat := ctx.concat ++ [Ast.Char c] }
    else
      .error (.InvalidEscape c)
  | c :: rest, false, ctx =>
    if c = '|' then
      if ctx.concat.isEmpty then .error .MissingOperand
      else parseLoop rest false (append_concat ctx)
    else if c = '?' then
      match ctx.concat.getLast? with
      | some prev => parseLoop rest false
          { ctx with concat := ctx.concat.dropLast ++ [Ast.Question prev] }
      | none => .error .MissingOperand
    else if c = '*' then
      match ctx.concat.getLast? with
      | some prev => parseLoop rest false
          { ctx with concat := ctx.concat.dropLast ++ [Ast.Star prev] }
      | none => .error .MissingOperand
    else if c = '+' then
      match ctx.concat.getLast? with
      | some prev => parseLoop rest false
          { ctx with concat := ctx.concat.dropLast ++ [Ast.Plus prev] }
      | none => .error .MissingOperand
    else if c = '(' then
      parseLoop rest false
        { concat := [], concat_or := [],
          stack := ctx.stack ++ [(ctx.concat, ctx.concat_or)] }
    else if c = ')' then
      match ctx.stack.getLast? with
      | some (prev_concat, prev_concat_or) =>
        -- The stack entry is popped first, exactly as in the source.
        if ctx.concat.isEmpty then
          -- Skip `()` (source comment); note the popped pair is dropped
          -- and `concat`/`concat_or` are left as they are.
          parseLoop rest false { ctx with stack := ctx.stack.dropLast }
        else
          let ctx2 := append_concat { ctx with stack := ctx.stack.dropLast }
          match or_ast ctx2.concat_or with
          | some inner_ast =>
            parseLoop rest false
              { concat := prev_concat ++ [inner_ast], concat_or := prev_concat_or,
                stack := ctx.stack.dropLast }
          | none =>
            parseLoop rest false
              { concat := prev_concat, concat_or := prev_concat_or,
                stack := ctx.stack.dropLast }
      | none => .error .UnexpectedParenthesis
    else if c = '\\' then
      parseLoop rest true ctx
    else
      parseLoop rest false { ctx with concat := ctx.concat ++ [Ast.Char c] }

/-- `parse` from parser.rs: scan the pattern, then run the end-of-input
finalization. -/
def parse (pattern : String) : Except ParseError Ast :=
  match parseLoop pattern.toList false ⟨[], [], []⟩ with
  | .error e => .error e
  | .ok ctx =>
    -- Check if there are unclosed parentheses.
    if ¬ ctx.stack.isEmpty then .error .UnclosedParenthesis
    else
      -- Process the last operand.
      if ctx.concat.isEmpty then
        if ¬ ctx.concat_or.isEmpty then .error .MissingOperand
        else
          match or_ast ctx.concat_or with
          | some ast => .ok ast
          | none => .error .Empty
      else
        match or_ast (append_concat ctx).concat_or with
        | some ast => .ok ast
        | none => .error .Empty

/-- Instruction set of codegen.rs. `Pc` is modeled as a plain `Nat`
(with the `USIZE_MAX` bound applied wherever the Rust code calls
`checked_add`). -/
inductive Instruction where
  | Char (c : Char)
  | Match
  | Jmp (target : Nat)
  | Split (l1 l2 : Nat)
  | AnyByte
deriving DecidableEq

/-- `GenerateCodeError` from codegen.rs has only `PcOverflow`; the
`AssertFail` and `Unreachable` constructors model the `assert_eq!` and
`unreachable!` panics in `CodeGenerator`. -/
inductive GenerateCodeError where
  | PcOverflow
  | AssertFail
  | Unreachable
deriving DecidableEq

/-- The `CodeGenerator` state of codegen.rs. -/
structure CodeGenerator where
  pc : Nat
  instructions : List Instruction
deriving DecidableEq

/-- Model of the `assert_eq!(self.instructions.len(), self.pc.0)`
statements of codegen.rs: an assertion failure is a panic, modeled as the
`AssertFail` error. -/
def assertInv (st : CodeGenerator) : Except GenerateCodeError Unit :=
  if st.instructions.length = st.pc then .ok () else .error .AssertFail

/-- `Pc::inc` as used by the generator: checked increment, returning the
new value (`Ok(*self)` in the source) together with the updated state. -/
def pcInc (st : CodeGenerator) : Except GenerateCodeError (Nat × CodeGenerator) :=
  match checkedAdd1 st.pc with
  | some new => .ok (new, { st with pc := new })
  | none => .error .PcOverflow

/-- `self.instructions.push(i)`. -/
def pushInstr (i : Instruction) (st : CodeGenerator) : CodeGenerator :=
  { st with instructions := st.instructions ++ [i] }

/-- The `Split` backpatch of codegen.rs: overwrite the second target of the
`Split` recorded at `idx`; any other instruction there is the
`unreachable!` panic. -/
def patchSplit (idx newTarget : Nat) (st : CodeGenerator) :
    Except GenerateCodeError CodeGenerator :=
  match st.instructions[idx]? with
  | some (.Split a _) =>
    .ok { st with instructions := st.instructions.set idx (.Split a newTarget) }
  | _ => .error .Unreachable

/-- The `Jmp` backpatch of codegen.rs. -/
def patchJmp (idx newTarget : Nat) (st : CodeGenerator) :
    Except GenerateCodeError CodeGenerator :=
  match st.instructions[idx]? with
  | some (.Jmp _) =>
    .ok { st with instructions := st.instructions.set idx (.Jmp newTarget) }
  | _ => .error .Unreachable

/-- `CodeGenerator::char`: emit `Char(c)`. -/
def genChar (c : Char) (st : CodeGenerator) : Except GenerateCodeError CodeGenerator :=
  let st := pushInstr (.Char c) st
  match pcInc st with
  | .error e => .error e
  | .ok (_, st) => .ok st

/-- `CodeGenerator::dot`: emit `AnyByte`. -/
def genDot (st0 : CodeGenerator) : Except GenerateCodeError CodeGenerator :=
  match assertInv st0 with
  | .error e' => .error e'
  | .ok _ =>
    let st1 := pushInstr .AnyByte st0
    match pcInc st1 with
    | .error e' => .error e'
    | .ok (_, st2) =>
      match assertInv st2 with
      | .error e' => .error e'
      | .ok _ => .ok st2

mutual

/-- `CodeGenerator::expr` from codegen.rs. -/
def genExpr : Ast → CodeGenerator → Except GenerateCodeError CodeGenerator
  | .Char c, st => genChar c st
  | .Concat xs, st => genConcat xs st
  | .Or lhs rhs, st => genOr lhs rhs st
  | .Question e, st => genQuestion e st
  | .Star e, st => genStar e st
  | .Plus e, st => genPlus e st
  | .Dot, st => genDot st
termination_by a _ => (sizeOf a, 1)

/-- `CodeGenerator::concat`: lower each child in sequence order. -/
def genConcat : List Ast → CodeGenerator → Except GenerateCodeError CodeGenerator
  | [], st => .ok st
  | x :: rest, st =>
    match genExpr x st with
    | .error e => .error e
    | .ok st => genConcat rest st
termination_by xs _ => (sizeOf xs, 1)

/-- `CodeGenerator::or`: `split L1, L2; L1: e1; jmp L3; L2: e2; L3:`. -/
def genOr (lhs rhs : Ast) (st0 : CodeGenerator) : Except GenerateCodeError CodeGenerator :=
  match assertInv st0 with
  | .error e => .error e
  | .ok _ =>
    let split_pc := st0.pc
    match pcInc st0 with
    | .error e => .error e
    | .ok (l1, st1) =>
      let st2 := pushInstr (.Split l1 0) st1
      match assertInv st2 with
      | .error e => .error e
      | .ok _ =>
        match genExpr lhs st2 with
        | .error e => .error e
        | .ok st3 =>
          let jmp_pc := st3.pc
          match pcInc st3 with
          | .error e => .error e
          | .ok (_, st4) =>
            let st5 := pushInstr (.Jmp 0) st4
            match assertInv st5 with
            | .error e => .error e
            | .ok _ =>
              match patchSplit split_pc st5.pc st5 with
              | .error e => .error e
              | .ok st6 =>
                match genExpr rhs st6 with
                | .error e => .error e
                | .ok st7 =>
                  match assertInv st7 with
                  | .error e => .error e
                  | .ok _ => patchJmp jmp_pc st7.pc st7
termination_by (1 + sizeOf lhs + sizeOf rhs, 0)

/-- `CodeGenerator::question`: `split L1, L2; L1: e; L2:`. -/
def genQuestion (e : Ast) (st0 : CodeGenerator) : Except GenerateCodeError CodeGenerator :=
  match assertInv st0 with
  | .error e' => .error e'
  | .ok _ =>
    let split_pc := st0.pc
    match pcInc st0 with
    | .error e' => .error e'
    | .ok (l1, st1) =>
      let st2 := pushInstr (.Split l1 0) st1
      match genExpr e st2 with
      | .error e' => .error e'
      | .ok st3 =>
        match assertInv st3 with
        | .error e' => .error e'
        | .ok _ => patchSplit split_pc st3.pc st3
termination_by (1 + sizeOf e, 0)

/-- `CodeGenerator::star`: `L1: split L2, L3; L2: e; jmp L1; L3:`. -/
def genStar (e : Ast) (st0 : CodeGenerator) : Except GenerateCodeError CodeGenerator :=
  match assertInv st0 with
  | .error e' => .error e'
  | .ok _ =>
    let l1 := st0.pc
    match pcInc st0 with
    | .error e' => .error e'
    | .ok (l2, st1) =>
      let st2 := pushInstr (.Split l2 0) st1
      match genExpr e st2 with
      | .error e' => .error e'
      | .ok st3 =>
        match assertInv st3 with
        | .error e' => .error e'
        | .ok _ =>
          match pcInc st3 with
          | .error e' => .error e'
          | .ok (_, st4) =>
            let st5 := pushInstr (.Jmp l1) st4
            match assertInv st5 with
            | .error e' => .error e'
            | .ok _ => patchSplit l1 st5.pc st5
termination_by (1 + sizeOf e, 0)

/-- `CodeGenerator::plus`: `L1: e; split L1, L2; L2:`. -/
def genPlus (e : Ast) (st0 : CodeGenerator) : Except GenerateCodeError CodeGenerator :=
  match assertInv st0 with
  | .error e' => .error e'
  | .ok _ =>
    let l1 := st0.pc
    match genExpr e st0 with
    | .error e' => .error e'
    | .ok st1 =>
      match assertInv st1 with
      | .error e' => .error e'
      | .ok _ =>
        match pcInc st1 with
        | .error e' => .error e'
        | .ok (l2, st2) =>
          let st3 := pushInstr (.Split l1 l2) st2
          match assertInv st3 with
          | .error e' => .error e'
          | .ok _ => .ok st3
termination_by (1 + sizeOf e, 0)

end

/-- `generate_code` from codegen.rs: lower the root node, then append the
final `Match`. -/
def generate_code (ast : Ast) : Except GenerateCodeError (List Instruction) :=
  let st : CodeGenerator := ⟨0, []⟩
  match assertInv st with
  | .error e => .error e
  | .ok _ =>
    match genExpr ast st with
    | .error e => .error e
    | .ok st =>
      match pcInc st with
      | .error e => .error e
      | .ok (_, st) =>
        let st := pushInstr .Match st
        match assertInv st with
        | .error e => .error e
        | .ok _ => .ok st.instructions

/-- `MatchError` from machine.rs. -/
inductive MatchError where
  | PcOverflow
  | SpOverflow
  | InstructionNotFound
deriving DecidableEq

/-- `Machine::is_matching` from machine.rs, fuel-indexed. One unit of fuel
is consumed per loop iteration / recursive call, so
`isMatching ins text fuel pc sp = some r` states that the Rust execution
starting at `(pc, sp)` finishes with result `r`, while `none` for every
fuel states that it diverges. `Sp`, like `Pc`, is a `Nat` with the
`USIZE_MAX` bound at each checked increment. -/
def isMatching (ins : List Instruction) (text : List Char) :
    Nat → Nat → Nat → Option (Except MatchError Bool)
  | 0, _, _ => none
  | fuel + 1, pc, sp =>
    match ins[pc]? with
    | none => some (.error .InstructionNotFound)
    | some (.Char c) =>
      match text[sp]? with
      | none => some (.ok false)
      | some cc =>
        if c = cc then
          match checkedAdd1 pc with
          | none => some (.error .PcOverflow)
          | some pc' =>
            match checkedAdd1 sp with
            | none => some (.error .SpOverflow)
            | some sp' => isMatching ins text fuel pc' sp'
        else some (.ok false)
    | some .Match => some (.ok true)
    | some (.Jmp target) => isMatching ins text fuel target sp
    | some (.Split l1 l2) =>
      match isMatching ins text fuel l1 sp with
      | none => none
      | some (.error e) => some (.error e)
      | some (.ok true) => some (.ok true)
      | some (.ok false) => isMatching ins text fuel l2 sp
    | some .AnyByte =>
      -- The dot matches any character, but never an empty one.
      match text[sp]? with
      | none => some (.ok false)
      | some _ =>
        match checkedAdd1 pc with
        | none => some (.error .PcOverflow)
        | some pc' =>
          match checkedAdd1 sp with
          | none => some (.error .SpOverflow)
          | some sp' => isMatching ins text fuel pc' sp'

/-- `Machine::is_match`: run `is_matching` from `Pc(0)`, `Sp(0)`. -/
def is_match (ins : List Instruction) (text : List Char) (fuel : Nat) :
    Option (Except MatchError Bool) :=
  isMatching ins text fuel 0 0

/-- The Rust `is_match` call on `text` returns `r`: some amount of fuel
suffices to reach that answer. -/
def Returns (ins : List Instruction) (text : List Char) (r : Except MatchError Bool) : Prop :=
  ∃ fuel, is_match ins text fuel = some r

/-- The instruction sequence `generate_code` produces for the pattern
`"(a?)*"` (a star whose body can match the empty sequence). -/
def aqsProg : List Instruction :=
  [.Split 1 4, .Split 2 3, .Char 'a', .Jmp 0, .Match]

/-- Positional well-formedness of the instruction stored at index `i` of a
program whose last valid index is `L`: consuming instructions must not sit
at the last index (their fall-through `i + 1` must still be a valid
index), and every jump/split target must be a valid index. -/
def instOk (L i : Nat) : Instruction → Prop
  | .Char _ => i < L
  | .AnyByte => i < L
  | .Jmp t => t ≤ L
  | .Split a b => a ≤ L ∧ b ≤ L
  | .Match => True

/-- Contract of one generator call that went from state `st` to `st'`:
the `len = pc` invariant is re-established, the program counter only
grows, instructions below the entry `pc` are untouched (backpatching only
ever targets slots emitted by the call itself), and every instruction
emitted by the call is positionally well-formed with respect to the exit
`pc`. -/
def GenPost (st st' : CodeGenerator) : Prop :=
  st'.instructions.length = st'.pc ∧
  st.pc ≤ st'.pc ∧
  (∀ i, i < st.pc → st'.instructions[i]? = st.instructions[i]?) ∧
  (∀ i inst, st.pc ≤ i → st'.instructions[i]? = some inst → instOk st'.pc i inst)


/-- Combined contract for the result of one generator call from state
`st`: a success re-establishes the generator invariants (`GenPost`), and
a failure is never a modeled `assert_eq!` panic (the only real failure
mode of codegen.rs is `PcOverflow`; `Unreachable` models the
`unreachable!` patch panic). -/
def GenOk (st : CodeGenerator) : Except GenerateCodeError CodeGenerator → Prop
  | .ok st' => GenPost st st'
  | .error e => e ≠ .AssertFail

/-! ## Theorems -/

theorem checkedAdd1_eq_some {n m : Nat} (h : checkedAdd1 n = some m) : m = n + 1 := by
  unfold checkedAdd1 at h
  split at h
  · exact (Option.some.inj h).symm
  · exact Option.noConfusion h

theorem checkedAdd1_le {n m : Nat} (h : checkedAdd1 n = some m) : m ≤ USIZE_MAX := by
  unfold checkedAdd1 at h
  split at h
  · next hle => exact (Option.some.inj h) ▸ hle
  · exact Option.noConfusion h

theorem checkedAdd1_of_lt {n : Nat} (h : n < USIZE_MAX) : checkedAdd1 n = some (n + 1) := by
  unfold checkedAdd1
  rw [if_pos (by omega)]

/-- C1: the spec says the `)` of an empty group `()` restores the outer
parsing context as a no-op, so that `parse "a()b"` equals `parse "ab"`.
The code instead pops the saved context off the stack and, on the
empty-group path, discards it without restoring it, so the outer buffer
holding `Char 'a'` is lost and `parse "a()b"` yields `Char 'b'` alone.
This evaluates the code at the failing input. -/
theorem empty_group_discards_outer_context :
    parse "a()b" = .ok (.Char 'b') ∧
    parse "ab" = .ok (.Concat [.Char 'a', .Char 'b']) ∧
    parse "a()b" ≠ parse "ab" := by
  refine ⟨rfl, rfl, fun h => ?_⟩
  rw [show parse "a()b" = .ok (.Char 'b') from rfl,
    show parse "ab" = .ok (.Concat [.Char 'a', .Char 'b']) from rfl] at h
  exact Ast.noConfusion (Except.ok.inj h)

/-- C2: the spec says `.` is a wildcard compiled to `AnyByte`, so that
`"a.b"` matches `"axb"`. The parser has no dispatch arm for `'.'` (and
its `Ast` enum does not even declare the `Dot` variant that codegen.rs
matches on), so `'.'` falls into the ordinary-character arm and becomes a
literal `Char '.'`; consequently the compiled `"a.b"` does not match
`"axb"`. The intended lowering `Ast::Dot → AnyByte` does exist in
codegen.rs, as the last conjunct shows. This evaluates the code at the
failing input. -/
theorem dot_parsed_as_literal_char :
    parse "." = .ok (.Char '.') ∧
    generate_code (.Char '.') = .ok [.Char '.', .Match] ∧
    parse "a.b" = .ok (.Concat [.Char 'a', .Char '.', .Char 'b']) ∧
    generate_code (.Concat [.Char 'a', .Char '.', .Char 'b']) =
      .ok [.Char 'a', .Char '.', .Char 'b', .Match] ∧
    is_match [.Char 'a', .Char '.', .Char 'b', .Match] "axb".toList 50 =
      some (.ok false) ∧
    generate_code .Dot = .ok [.AnyByte, .Match] := by
  refine ⟨rfl, ?_, rfl, ?_, rfl, ?_⟩ <;>
    simp [generate_code, genExpr, genChar, genConcat, genOr, genQuestion, genStar,
      genPlus, genDot, assertInv, pcInc, pushInstr, patchSplit, patchJmp,
      checkedAdd1, USIZE_MAX]

/-- C3: the spec says a dangling escape at end of input must be a parse
error and must not be silently dropped. The scan loop sets the `escaping`
flag on the final `'\'` and then simply ends; the finalization never
inspects the flag, so `parse "a\\"` succeeds as if the backslash were not
there. This evaluates the code at the failing input. -/
theorem trailing_backslash_silently_dropped :
    parse "a\\" = .ok (.Char 'a') ∧ parse "a\\" = parse "a" :=
  ⟨rfl, rfl⟩

/-- C8: reaching a `Match` instruction makes `is_matching` return `true`
immediately, regardless of how much input remains unconsumed; in
particular the compiled literal pattern `"abc"` matches the text
`"abcd"`. -/
theorem match_instruction_succeeds_immediately :
    (∀ (ins : List Instruction) (text : List Char) (pc sp fuel : Nat),
      ins[pc]? = some .Match → isMatching ins text (fuel + 1) pc sp = some (.ok true)) ∧
    parse "abc" = .ok (.Concat [.Char 'a', .Char 'b', .Char 'c']) ∧
    generate_code (.Concat [.Char 'a', .Char 'b', .Char 'c']) =
      .ok [.Char 'a', .Char 'b', .Char 'c', .Match] ∧
    is_match [.Char 'a', .Char 'b', .Char 'c', .Match] "abcd".toList 50 =
      some (.ok true) ∧
    "abcd".toList.length = 4 := by
  refine ⟨fun ins text pc sp fuel h => ?_, rfl, ?_, rfl, rfl⟩
  · simp [isMatching, h]
  · simp [generate_code, genExpr, genChar, genConcat, genOr, genQuestion, genStar,
      genPlus, genDot, assertInv, pcInc, pushInstr, patchSplit, patchJmp,
      checkedAdd1, USIZE_MAX]

/-- C8 witness: the general part applied to a one-instruction program at
`pc = 0` with `sp = 5` well past the end of the empty text. -/
theorem match_instruction_succeeds_immediately_witness :
    isMatching [Instruction.Match] [] 1 0 5 = some (.ok true) :=
  match_instruction_succeeds_immediately.1 [.Match] [] 0 5 0 rfl

/-- C9: the quantifier truth tables from the spec, checked end to end
through `parse`, `generate_code` and the matching machine: `"a*b"` on
`""`, `"b"`, `"ab"`, `"aab"`, `"xb"`; `"a+b"` on `"b"`, `"ab"`,
`"aaab"`; `"a?b"` on `"b"`, `"ab"`, `"aab"`. -/
theorem quantifier_truth_tables :
    parse "a*b" = .ok (.Concat [.Star (.Char 'a'), .Char 'b']) ∧
    generate_code (.Concat [.Star (.Char 'a'), .Char 'b']) =
      .ok [.Split 1 3, .Char 'a', .Jmp 0, .Char 'b', .Match] ∧
    is_match [.Split 1 3, .Char 'a', .Jmp 0, .Char 'b', .Match] "".toList 50 =
      some (.ok false) ∧
    is_match [.Split 1 3, .Char 'a', .Jmp 0, .Char 'b', .Match] "b".toList 50 =
      some (.ok true) ∧
    is_match [.Split 1 3, .Char 'a', .Jmp 0, .Char 'b', .Match] "ab".toList 50 =
      some (.ok true) ∧
    is_match [.Split 1 3, .Char 'a', .Jmp 0, .Char 'b', .Match] "aab".toList 50 =
      some (.ok true) ∧
    is_match [.Split 1 3, .Char 'a', .Jmp 0, .Char 'b', .Match] "xb".toList 50 =
      some (.ok false) ∧
    parse "a+b" = .ok (.Concat [.Plus (.Char 'a'), .Char 'b']) ∧
    generate_code (.Concat [.Plus (.Char 'a'), .Char 'b']) =
      .ok [.Char 'a', .Split 0 2, .Char 'b', .Match] ∧
    is_match [.Char 'a', .Split 0 2, .Char 'b', .Match] "b".toList 50 =
      some (.ok false) ∧
    is_match [.Char 'a', .Split 0 2, .Char 'b', .Match] "ab".toList 50 =
      some (.ok true) ∧
    is_match [.Char 'a', .Split 0 2, .Char 'b', .Match] "aaab".toList 50 =
      some (.ok true) ∧
    parse "a?b" = .ok (.Concat [.Question (.Char 'a'), .Char 'b']) ∧
    generate_code (.Concat [.Question (.Char 'a'), .Char 'b']) =
      .ok [.Split 1 2, .Char 'a', .Char 'b', .Match] ∧
    is_match [.Split 1 2, .Char 'a', .Char 'b', .Match] "b".toList 50 =
      some (.ok true) ∧
    is_match [.Split 1 2, .Char 'a', .Char 'b', .Match] "ab".toList 50 =
      some (.ok true) ∧
    is_match [.Split 1 2, .Char 'a', .Char 'b', .Match] "aab".toList 50 =
      some (.ok false) := by
  refine ⟨rfl, ?_, rfl, rfl, rfl, rfl, rfl, rfl, ?_, rfl, rfl, rfl, rfl, ?_,
    rfl, rfl, rfl⟩ <;>
    simp [generate_code, genExpr, genChar, genConcat, genOr, genQuestion, genStar,
      genPlus, genDot, assertInv, pcInc, pushInstr, patchSplit, patchJmp,
      checkedAdd1, USIZE_MAX]

/-- C10: the end-of-input finalization of `parse` checks for unclosed
groups first: whenever the scan loop ends with a non-empty group stack,
the result is `UnclosedParenthesis`, before the missing-right-operand and
empty checks are even reached; in particular both `"(a|"` and `"("`
report `UnclosedParenthesis`. -/
theorem unclosed_parenthesis_checked_first :
    (∀ (pattern : String) (ctx : Context),
      parseLoop pattern.toList false ⟨[], [], []⟩ = .ok ctx → ctx.stack ≠ [] →
      parse pattern = .error .UnclosedParenthesis) ∧
    parse "(a|" = .error .UnclosedParenthesis ∧
    parse "(" = .error .UnclosedParenthesis := by
  refine ⟨fun pattern ctx h hs => ?_, rfl, rfl⟩
  simp only [parse, h]
  rw [if_pos]
  simp [List.isEmpty_iff, hs]

/-- C10 witness: the general part applied to the pattern `"("`, whose scan
ends with one saved context on the stack. -/
theorem unclosed_parenthesis_checked_first_witness :
    parse "(" = .error .UnclosedParenthesis :=
  unclosed_parenthesis_checked_first.1 "(" ⟨[], [], [([], [])]⟩ rfl
    (fun h => List.noConfusion h)

theorem aqs_run_none : ∀ fuel : Nat,
    isMatching aqsProg [] fuel 0 0 = none ∧
    isMatching aqsProg [] fuel 1 0 = none ∧
    isMatching aqsProg [] fuel 3 0 = none := by
  intro fuel
  induction fuel with
  | zero => exact ⟨rfl, rfl, rfl⟩
  | succ f ih =>
    obtain ⟨h0, h1, h3⟩ := ih
    have e0 : isMatching aqsProg [] (f + 1) 0 0 =
        (match isMatching aqsProg [] f 1 0 with
          | none => none
          | some (.error e) => some (.error e)
          | some (.ok true) => some (.ok true)
          | some (.ok false) => isMatching aqsProg [] f 4 0) := rfl
    have e1 : isMatching aqsProg [] (f + 1) 1 0 =
        (match isMatching aqsProg [] f 2 0 with
          | none => none
          | some (.error e) => some (.error e)
          | some (.ok true) => some (.ok true)
          | some (.ok false) => isMatching aqsProg [] f 3 0) := rfl
    have e3 : isMatching aqsProg [] (f + 1) 3 0 = isMatching aqsProg [] f 0 0 := rfl
    refine ⟨?_, ?_, ?_⟩
    · rw [e0, h1]
    · rw [e1]
      cases f with
      | zero => rfl
      | succ g =>
        have e2 : isMatching aqsProg [] (g + 1) 2 0 = some (.ok false) := rfl
        rw [e2]
        exact h3
    · rw [e3, h0]

/-- C4: the spec claims the backtracking evaluation always terminates,
with recursion depth bounded by the number of `Split` instructions along
a path — in particular for star patterns with a nullable body such as
`"(a?)*"`. The pattern `"(a?)*"` parses and compiles successfully, but on
the empty text the execution cycles `pc 0 → 1 → 3 → (Jmp) → 0` without
consuming input, so no amount of fuel produces a result: the Rust
recursion never returns (it overflows the stack). This evaluates the code
at the failing input. -/
theorem nullable_star_match_diverges :
    parse "(a?)*" = .ok (.Star (.Question (.Char 'a'))) ∧
    generate_code (.Star (.Question (.Char 'a'))) = .ok aqsProg ∧
    ∀ fuel, is_match aqsProg [] fuel = none := by
  refine ⟨rfl, ?_, fun fuel => (aqs_run_none fuel).1⟩
  simp [aqsProg, generate_code, genExpr, genChar, genConcat, genOr, genQuestion,
    genStar, genPlus, genDot, assertInv, pcInc, pushInstr, patchSplit, patchJmp,
    checkedAdd1, USIZE_MAX]

/-- C5 counterexample: the claim says that for every AST on which
`generate_code` succeeds and every indexable text, `is_match` returns
`Ok(true)` or `Ok(false)`. For the successfully compiled `"(a?)*"` and
the empty text (whose length certainly admits valid indexing) the
execution diverges, so there is no fuel at which it returns any `Ok`
value at all. -/
theorem compiled_pattern_match_returns_nothing :
    generate_code (.Star (.Question (.Char 'a'))) = .ok aqsProg ∧
    ([] : List Char).length ≤ USIZE_MAX ∧
    ¬ ∃ b : Bool, Returns aqsProg [] (.ok b) := by
  refine ⟨?_, Nat.zero_le _, ?_⟩
  · simp [aqsProg, generate_code, genExpr, genChar, genConcat, genOr, genQuestion,
      genStar, genPlus, genDot, assertInv, pcInc, pushInstr, patchSplit, patchJmp,
      checkedAdd1, USIZE_MAX]
  · rintro ⟨b, fuel, h⟩
    rw [show is_match aqsProg [] fuel = isMatching aqsProg [] fuel 0 0 from rfl,
      (aqs_run_none fuel).1] at h
    exact Option.noConfusion h

theorem lt_length_of_some {α} {l : List α} {i : Nat} {x : α} (h : l[i]? = some x) :
    i < l.length := by
  obtain ⟨hlt, _⟩ := List.getElem?_eq_some_iff.mp h
  exact hlt

theorem instOk_mono {L L' i : Nat} {inst : Instruction} (h : instOk L i inst)
    (hL : L ≤ L') : instOk L' i inst := by
  cases inst <;> simp [instOk] at h ⊢ <;> omega

theorem GenPost_refl {st : CodeGenerator} (h : st.instructions.length = st.pc) :
    GenPost st st := by
  refine ⟨h, Nat.le_refl _, fun _ _ => rfl, fun i inst hle hget => ?_⟩
  have := lt_length_of_some hget
  omega

theorem GenPost_trans {st1 st2 st3 : CodeGenerator}
    (h12 : GenPost st1 st2) (h23 : GenPost st2 st3) : GenPost st1 st3 := by
  obtain ⟨len12, mono12, pre12, reg12⟩ := h12
  obtain ⟨len23, mono23, pre23, reg23⟩ := h23
  refine ⟨len23, Nat.le_trans mono12 mono23, fun i hi => ?_, fun i inst hle hget => ?_⟩
  · exact (pre23 i (Nat.lt_of_lt_of_le hi mono12)).trans (pre12 i hi)
  · rcases Nat.lt_or_ge i st2.pc with hlt | hge
    · rw [pre23 i hlt] at hget
      exact instOk_mono (reg12 i inst hle hget) mono23
    · exact reg23 i inst hge hget

theorem GenPost_push_inc (st : CodeGenerator) (inst : Instruction)
    (hwf : st.instructions.length = st.pc) (hok : instOk (st.pc + 1) st.pc inst) :
    GenPost st ⟨st.pc + 1, st.instructions ++ [inst]⟩ := by
  refine ⟨by simp [hwf], Nat.le_succ _, fun i hi => ?_, fun i inst' hle hget => ?_⟩
  · exact List.getElem?_append_left (by omega)
  · rcases Nat.lt_trichotomy i st.pc with hlt | heq | hgt
    · omega
    · have hi : i = st.instructions.length := by omega
      subst hi
      rw [List.getElem?_concat_length] at hget
      cases hget
      rw [hwf]
      exact hok
    · rw [List.getElem?_eq_none (by simp; omega)] at hget
      exact Option.noConfusion hget

theorem GenPost_set {st0 st : CodeGenerator} (h : GenPost st0 st) (idx : Nat)
    (inst : Instruction) (hidx : st0.pc ≤ idx) (hlt : idx < st.instructions.length)
    (hok : instOk st.pc idx inst) :
    GenPost st0 ⟨st.pc, st.instructions.set idx inst⟩ := by
  obtain ⟨len, mono, pre, reg⟩ := h
  refine ⟨by simp [len], mono, fun i hi => ?_, fun i inst' hle hget => ?_⟩
  · rw [List.getElem?_set_ne (by omega)]
    exact pre i hi
  · by_cases hcase : i = idx
    · subst hcase
      rw [List.getElem?_set_self hlt] at hget
      cases hget
      exact hok
    · rw [List.getElem?_set_ne (fun hh => hcase hh.symm)] at hget
      exact reg i inst' hle hget

theorem assertInv_eq_ok {st : CodeGenerator} (h : st.instructions.length = st.pc) :
    assertInv st = .ok () := by
  simp [assertInv, h]

theorem pcInc_ok {st : CodeGenerator} {n : Nat} {st' : CodeGenerator}
    (h : pcInc st = .ok (n, st')) :
    n = st.pc + 1 ∧ st' = { st with pc := st.pc + 1 } := by
  unfold pcInc at h
  split at h
  · next m heq =>
    injection h with h'
    injection h' with h1 h2
    exact ⟨h1 ▸ checkedAdd1_eq_some heq, h2 ▸ by rw [checkedAdd1_eq_some heq]⟩
  · exact Except.noConfusion h

theorem pcInc_error {st : CodeGenerator} {e : GenerateCodeError}
    (h : pcInc st = .error e) : e = .PcOverflow := by
  unfold pcInc at h
  split at h
  · exact Except.noConfusion h
  · cases h
    rfl

theorem patchSplit_ok {idx t : Nat} {st st' : CodeGenerator} {a b : Nat}
    (hget : st.instructions[idx]? = some (.Split a b))
    (h : patchSplit idx t st = .ok st') :
    st' = { st with instructions := st.instructions.set idx (.Split a t) } := by
  unfold patchSplit at h
  rw [hget] at h
  cases h
  rfl

theorem patchSplit_error {idx t : Nat} {st : CodeGenerator} {e : GenerateCodeError}
    (h : patchSplit idx t st = .error e) : e = .Unreachable := by
  unfold patchSplit at h
  split at h
  · exact Except.noConfusion h
  · cases h
    rfl

theorem patchJmp_ok {idx t : Nat} {st st' : CodeGenerator} {a : Nat}
    (hget : st.instructions[idx]? = some (.Jmp a))
    (h : patchJmp idx t st = .ok st') :
    st' = { st with instructions := st.instructions.set idx (.Jmp t) } := by
  unfold patchJmp at h
  rw [hget] at h
  cases h
  rfl

theorem patchJmp_error {idx t : Nat} {st : CodeGenerator} {e : GenerateCodeError}
    (h : patchJmp idx t st = .error e) : e = .Unreachable := by
  unfold patchJmp at h
  split at h
  · exact Except.noConfusion h
  · cases h
    rfl

theorem genChar_spec (c : Char) (st : CodeGenerator)
    (hwf : st.instructions.length = st.pc) : GenOk st (genChar c st) := by
  unfold genChar
  simp only []
  split
  · next e heq =>
    simp only [GenOk]
    rw [pcInc_error heq]
    exact fun hc => GenerateCodeError.noConfusion hc
  · next n st2 heq =>
    simp only [GenOk]
    obtain ⟨hn, hst⟩ := pcInc_ok heq
    subst hst
    exact GenPost_push_inc st (.Char c) hwf (by simp [instOk])

theorem genDot_spec (st : CodeGenerator)
    (hwf : st.instructions.length = st.pc) : GenOk st (genDot st) := by
  unfold genDot
  simp only []
  split
  · next e heq =>
    rw [assertInv_eq_ok hwf] at heq
    exact Except.noConfusion heq
  · split
    · next e heq =>
      simp only [GenOk]
      rw [pcInc_error heq]
      exact fun hc => GenerateCodeError.noConfusion hc
    · next n st2 heq =>
      obtain ⟨hn, hst⟩ := pcInc_ok heq
      subst hst
      split
      · next e heq2 =>
        rw [assertInv_eq_ok (by simp [pushInstr, hwf])] at heq2
        exact Except.noConfusion heq2
      · simp only [GenOk]
        exact GenPost_push_inc st .AnyByte hwf (by simp [instOk])

theorem genOr_spec (lhs rhs : Ast) (st0 : CodeGenerator)
    (hwf : st0.instructions.length = st0.pc)
    (IHl : ∀ st1 : CodeGenerator, st1.instructions.length = st1.pc →
      GenOk st1 (genExpr lhs st1))
    (IHr : ∀ st1 : CodeGenerator, st1.instructions.length = st1.pc →
      GenOk st1 (genExpr rhs st1)) :
    GenOk st0 (genOr lhs rhs st0) := by
  unfold genOr
  simp only []
  split
  · next e heq =>
    rw [assertInv_eq_ok hwf] at heq
    exact Except.noConfusion heq
  · split
    · next e heq =>
      simp only [GenOk]
      rw [pcInc_error heq]
      exact fun hc => GenerateCodeError.noConfusion hc
    · next l1 st1 heq1 =>
      obtain ⟨hl1, hst1⟩ := pcInc_ok heq1
      subst hl1 hst1
      have hwf2 : (pushInstr (.Split (st0.pc + 1) 0)
          { st0 with pc := st0.pc + 1 }).instructions.length =
          (pushInstr (.Split (st0.pc + 1) 0) { st0 with pc := st0.pc + 1 }).pc := by
        simp [pushInstr, hwf]
      have hpost2 : GenPost st0
          (pushInstr (.Split (st0.pc + 1) 0) { st0 with pc := st0.pc + 1 }) :=
        GenPost_push_inc st0 (.Split (st0.pc + 1) 0) hwf
          (by simp only [instOk]; omega)
      split
      · next e heq =>
        rw [assertInv_eq_ok hwf2] at heq
        exact Except.noConfusion heq
      · split
        · next e heq =>
          have := IHl _ hwf2
          rw [heq] at this
          exact this
        · next st3 heq3 =>
          have hpost3 : GenPost
              (pushInstr (.Split (st0.pc + 1) 0) { st0 with pc := st0.pc + 1 }) st3 := by
            have := IHl _ hwf2
            rw [heq3] at this
            exact this
          have hwf3 : st3.instructions.length = st3.pc := hpost3.1
          have hm3 : st0.pc + 1 ≤ st3.pc := hpost3.2.1
          split
          · next e heq =>
            simp only [GenOk]
            rw [pcInc_error heq]
            exact fun hc => GenerateCodeError.noConfusion hc
          · next n4 st4 heq4 =>
            obtain ⟨hn4, hst4⟩ := pcInc_ok heq4
            subst hn4 hst4
            have hwf5 : (pushInstr (.Jmp 0)
                { st3 with pc := st3.pc + 1 }).instructions.length =
                (pushInstr (.Jmp 0) { st3 with pc := st3.pc + 1 }).pc := by
              simp [pushInstr, hwf3]
            have hpost5 : GenPost st3 (pushInstr (.Jmp 0) { st3 with pc := st3.pc + 1 }) :=
              GenPost_push_inc st3 (.Jmp 0) hwf3 (by simp only [instOk]; omega)
            split
            · next e heq =>
              rw [assertInv_eq_ok hwf5] at heq
              exact Except.noConfusion heq
            · split
              · next e heq =>
                simp only [GenOk]
                rw [patchSplit_error heq]
                exact fun hc => GenerateCodeError.noConfusion hc
              · next st6 heq6 =>
                have hslot : (pushInstr (.Jmp 0)
                    { st3 with pc := st3.pc + 1 }).instructions[st0.pc]? =
                    some (.Split (st0.pc + 1) 0) := by
                  show (st3.instructions ++ [Instruction.Jmp 0])[st0.pc]? = _
                  rw [List.getElem?_append_left (by omega)]
                  rw [hpost3.2.2.1 st0.pc (Nat.lt_succ_self st0.pc)]
                  show (st0.instructions ++
                    [Instruction.Split (st0.pc + 1) 0])[st0.pc]? = _
                  rw [← hwf]
                  exact List.getElem?_concat_length _ _
                have hst6 := patchSplit_ok hslot heq6
                subst hst6
                have hpost05 : GenPost st0 (pushInstr (.Jmp 0) { st3 with pc := st3.pc + 1 }) :=
                  GenPost_trans (GenPost_trans hpost2 hpost3) hpost5
                have hlt6 : st0.pc < (pushInstr (.Jmp 0)
                    { st3 with pc := st3.pc + 1 }).instructions.length := by
                  show st0.pc < (st3.instructions ++ [Instruction.Jmp 0]).length
                  simp only [List.length_append, List.length_cons, List.length_nil]
                  omega
                have hpost6 : GenPost st0
                    ⟨(pushInstr (.Jmp 0) { st3 with pc := st3.pc + 1 }).pc,
                      (pushInstr (.Jmp 0) { st3 with pc := st3.pc + 1 }).instructions.set
                        st0.pc (.Split (st0.pc + 1)
                          (pushInstr (.Jmp 0) { st3 with pc := st3.pc + 1 }).pc)⟩ :=
                  GenPost_set hpost05 st0.pc _ (Nat.le_refl _) hlt6
                    ⟨(show st0.pc + 1 ≤ st3.pc + 1 by omega), Nat.le_refl _⟩
                have hwf6 : ((pushInstr (.Jmp 0)
                    { st3 with pc := st3.pc + 1 }).instructions.set st0.pc
                      (.Split (st0.pc + 1)
                        (pushInstr (.Jmp 0) { st3 with pc := st3.pc + 1 }).pc)).length =
                    st3.pc + 1 := by
                  show ((st3.instructions ++ [Instruction.Jmp 0]).set st0.pc _).length = _
                  simp [hwf3]
                split
                · next e heq =>
                  have hih := IHr
                    ⟨(pushInstr (.Jmp 0) { st3 with pc := st3.pc + 1 }).pc,
                      (pushInstr (.Jmp 0) { st3 with pc := st3.pc + 1 }).instructions.set
                        st0.pc (.Split (st0.pc + 1)
                          (pushInstr (.Jmp 0) { st3 with pc := st3.pc + 1 }).pc)⟩ hwf6
                  rw [heq] at hih
                  exact hih
                · next st7 heq7 =>
                  have hpost7 : GenPost
                      ⟨(pushInstr (.Jmp 0) { st3 with pc := st3.pc + 1 }).pc,
                        (pushInstr (.Jmp 0) { st3 with pc := st3.pc + 1 }).instructions.set
                          st0.pc (.Split (st0.pc + 1)
                            (pushInstr (.Jmp 0) { st3 with pc := st3.pc + 1 }).pc)⟩ st7 := by
                    have hih := IHr
                      ⟨(pushInstr (.Jmp 0) { st3 with pc := st3.pc + 1 }).pc,
                        (pushInstr (.Jmp 0) { st3 with pc := st3.pc + 1 }).instructions.set
                          st0.pc (.Split (st0.pc + 1)
                            (pushInstr (.Jmp 0) { st3 with pc := st3.pc + 1 }).pc)⟩ hwf6
                    rw [heq7] at hih
                    exact hih
                  have hwf7 : st7.instructions.length = st7.pc := hpost7.1
                  have hm7 : st3.pc + 1 ≤ st7.pc := hpost7.2.1
                  split
                  · next e heq =>
                    rw [assertInv_eq_ok hwf7] at heq
                    exact Except.noConfusion heq
                  · cases hpj : patchJmp st3.pc st7.pc st7 with
                    | error e =>
                      simp only [GenOk]
                      rw [patchJmp_error hpj]
                      exact fun hc => GenerateCodeError.noConfusion hc
                    | ok st8 =>
                      have hslot2 : st7.instructions[st3.pc]? = some (.Jmp 0) := by
                        rw [hpost7.2.2.1 st3.pc (Nat.lt_succ_self st3.pc)]
                        show ((st3.instructions ++ [Instruction.Jmp 0]).set st0.pc
                          _)[st3.pc]? = _
                        rw [List.getElem?_set_ne (by omega)]
                        rw [← hwf3]
                        exact List.getElem?_concat_length _ _
                      have hst8 := patchJmp_ok hslot2 hpj
                      subst hst8
                      simp only [GenOk]
                      exact GenPost_set (GenPost_trans hpost6 hpost7) st3.pc
                        (.Jmp st7.pc) (by omega) (by omega) (Nat.le_refl st7.pc)

theorem genQuestion_spec (e : Ast) (st0 : CodeGenerator)
    (hwf : st0.instructions.length = st0.pc)
    (IH : ∀ st1 : CodeGenerator, st1.instructions.length = st1.pc →
      GenOk st1 (genExpr e st1)) :
    GenOk st0 (genQuestion e st0) := by
  unfold genQuestion
  simp only []
  split
  · next e' heq =>
    rw [assertInv_eq_ok hwf] at heq
    exact Except.noConfusion heq
  · split
    · next e' heq =>
      simp only [GenOk]
      rw [pcInc_error heq]
      exact fun hc => GenerateCodeError.noConfusion hc
    · next l1 st1 heq1 =>
      obtain ⟨hl1, hst1⟩ := pcInc_ok heq1
      subst hl1 hst1
      have hwf2 : (pushInstr (.Split (st0.pc + 1) 0)
          { st0 with pc := st0.pc + 1 }).instructions.length =
          (pushInstr (.Split (st0.pc + 1) 0) { st0 with pc := st0.pc + 1 }).pc := by
        simp [pushInstr, hwf]
      have hpost2 : GenPost st0
          (pushInstr (.Split (st0.pc + 1) 0) { st0 with pc := st0.pc + 1 }) :=
        GenPost_push_inc st0 (.Split (st0.pc + 1) 0) hwf
          (by simp only [instOk]; omega)
      split
      · next e' heq =>
        have hih := IH _ hwf2
        rw [heq] at hih
        exact hih
      · next st3 heq3 =>
        have hpost3 : GenPost
            (pushInstr (.Split (st0.pc + 1) 0) { st0 with pc := st0.pc + 1 }) st3 := by
          have hih := IH _ hwf2
          rw [heq3] at hih
          exact hih
        have hwf3 : st3.instructions.length = st3.pc := hpost3.1
        have hm3 : st0.pc + 1 ≤ st3.pc := hpost3.2.1
        split
        · next e' heq =>
          rw [assertInv_eq_ok hwf3] at heq
          exact Except.noConfusion heq
        · cases hps : patchSplit st0.pc st3.pc st3 with
          | error e' =>
            simp only [GenOk]
            rw [patchSplit_error hps]
            exact fun hc => GenerateCodeError.noConfusion hc
          | ok st4 =>
            have hslot : st3.instructions[st0.pc]? = some (.Split (st0.pc + 1) 0) := by
              rw [hpost3.2.2.1 st0.pc (Nat.lt_succ_self st0.pc)]
              show (st0.instructions ++ [Instruction.Split (st0.pc + 1) 0])[st0.pc]? = _
              rw [← hwf]
              exact List.getElem?_concat_length _ _
            have hst4 := patchSplit_ok hslot hps
            subst hst4
            simp only [GenOk]
            exact GenPost_set (GenPost_trans hpost2 hpost3) st0.pc
              (.Split (st0.pc + 1) st3.pc) (Nat.le_refl _) (by omega)
              ⟨by omega, Nat.le_refl _⟩

theorem genStar_spec (e : Ast) (st0 : CodeGenerator)
    (hwf : st0.instructions.length = st0.pc)
    (IH : ∀ st1 : CodeGenerator, st1.instructions.length = st1.pc →
      GenOk st1 (genExpr e st1)) :
    GenOk st0 (genStar e st0) := by
  unfold genStar
  simp only []
  split
  · next e' heq =>
    rw [assertInv_eq_ok hwf] at heq
    exact Except.noConfusion heq
  · split
    · next e' heq =>
      simp only [GenOk]
      rw [pcInc_error heq]
      exact fun hc => GenerateCodeError.noConfusion hc
    · next l2 st1 heq1 =>
      obtain ⟨hl2, hst1⟩ := pcInc_ok heq1
      subst hl2 hst1
      have hwf2 : (pushInstr (.Split (st0.pc + 1) 0)
          { st0 with pc := st0.pc + 1 }).instructions.length =
          (pushInstr (.Split (st0.pc + 1) 0) { st0 with pc := st0.pc + 1 }).pc := by
        simp [pushInstr, hwf]
      have hpost2 : GenPost st0
          (pushInstr (.Split (st0.pc + 1) 0) { st0 with pc := st0.pc + 1 }) :=
        GenPost_push_inc st0 (.Split (st0.pc + 1) 0) hwf
          (by simp only [instOk]; omega)
      split
      · next e' heq =>
        have hih := IH _ hwf2
        rw [heq] at hih
        exact hih
      · next st3 heq3 =>
        have hpost3 : GenPost
            (pushInstr (.Split (st0.pc + 1) 0) { st0 with pc := st0.pc + 1 }) st3 := by
          have hih := IH _ hwf2
          rw [heq3] at hih
          exact hih
        have hwf3 : st3.instructions.length = st3.pc := hpost3.1
        have hm3 : st0.pc + 1 ≤ st3.pc := hpost3.2.1
        split
        · next e' heq =>
          rw [assertInv_eq_ok hwf3] at heq
          exact Except.noConfusion heq
        · split
          · next e' heq =>
            simp only [GenOk]
            rw [pcInc_error heq]
            exact fun hc => GenerateCodeError.noConfusion hc
          · next n4 st4 heq4 =>
            obtain ⟨hn4, hst4⟩ := pcInc_ok heq4
            subst hn4 hst4
            have hwf5 : (pushInstr (.Jmp st0.pc)
                { st3 with pc := st3.pc + 1 }).instructions.length =
                (pushInstr (.Jmp st0.pc) { st3 with pc := st3.pc + 1 }).pc := by
              simp [pushInstr, hwf3]
            have hpost5 : GenPost st3
                (pushInstr (.Jmp st0.pc) { st3 with pc := st3.pc + 1 }) :=
              GenPost_push_inc st3 (.Jmp st0.pc) hwf3 (by simp only [instOk]; omega)
            split
            · next e' heq =>
              rw [assertInv_eq_ok hwf5] at heq
              exact Except.noConfusion heq
            · cases hps : patchSplit st0.pc
                  (pushInstr (.Jmp st0.pc) { st3 with pc := st3.pc + 1 }).pc
                  (pushInstr (.Jmp st0.pc) { st3 with pc := st3.pc + 1 }) with
              | error e' =>
                simp only [GenOk]
                rw [patchSplit_error hps]
                exact fun hc => GenerateCodeError.noConfusion hc
              | ok st6 =>
                have hslot : (pushInstr (.Jmp st0.pc)
                    { st3 with pc := st3.pc + 1 }).instructions[st0.pc]? =
                    some (.Split (st0.pc + 1) 0) := by
                  show (st3.instructions ++ [Instruction.Jmp st0.pc])[st0.pc]? = _
                  rw [List.getElem?_append_left (by omega)]
                  rw [hpost3.2.2.1 st0.pc (Nat.lt_succ_self st0.pc)]
                  show (st0.instructions ++
                    [Instruction.Split (st0.pc + 1) 0])[st0.pc]? = _
                  rw [← hwf]
                  exact List.getElem?_concat_length _ _
                have hst6 := patchSplit_ok hslot hps
                subst hst6
                simp only [GenOk]
                refine GenPost_set
                  (GenPost_trans (GenPost_trans hpost2 hpost3) hpost5) st0.pc
                  (.Split (st0.pc + 1)
                    (pushInstr (.Jmp st0.pc) { st3 with pc := st3.pc + 1 }).pc)
                  (Nat.le_refl _) ?_ ?_
                · show st0.pc < (st3.instructions ++ [Instruction.Jmp st0.pc]).length
                  simp only [List.length_append, List.length_cons, List.length_nil]
                  omega
                · exact ⟨show st0.pc + 1 ≤ st3.pc + 1 by omega, Nat.le_refl _⟩

theorem genPlus_spec (e : Ast) (st0 : CodeGenerator)
    (hwf : st0.instructions.length = st0.pc)
    (IH : ∀ st1 : CodeGenerator, st1.instructions.length = st1.pc →
      GenOk st1 (genExpr e st1)) :
    GenOk st0 (genPlus e st0) := by
  unfold genPlus
  simp only []
  split
  · next e' heq =>
    rw [assertInv_eq_ok hwf] at heq
    exact Except.noConfusion heq
  · split
    · next e' heq =>
      have hih := IH st0 hwf
      rw [heq] at hih
      exact hih
    · next st1 heq1 =>
      have hpost1 : GenPost st0 st1 := by
        have hih := IH st0 hwf
        rw [heq1] at hih
        exact hih
      have hwf1 : st1.instructions.length = st1.pc := hpost1.1
      have hm1 : st0.pc ≤ st1.pc := hpost1.2.1
      split
      · next e' heq =>
        rw [assertInv_eq_ok hwf1] at heq
        exact Except.noConfusion heq
      · split
        · next e' heq =>
          simp only [GenOk]
          rw [pcInc_error heq]
          exact fun hc => GenerateCodeError.noConfusion hc
        · next l2 st2 heq2 =>
          obtain ⟨hl2, hst2⟩ := pcInc_ok heq2
          subst hl2 hst2
          split
          · next e' heq =>
            rw [assertInv_eq_ok (by simp [pushInstr, hwf1])] at heq
            exact Except.noConfusion heq
          · simp only [GenOk]
            exact GenPost_trans hpost1
              (GenPost_push_inc st1 (.Split st0.pc (st1.pc + 1)) hwf1
                (by simp only [instOk]; omega))

mutual

theorem genExpr_spec (a : Ast) : ∀ st : CodeGenerator,
    st.instructions.length = st.pc → GenOk st (genExpr a st) := by
  intro st hwf
  cases a with
  | Char c =>
    simp only [genExpr]
    exact genChar_spec c st hwf
  | Concat xs =>
    simp only [genExpr]
    exact genConcat_spec xs st hwf
  | Or l r =>
    simp only [genExpr]
    exact genOr_spec l r st hwf (fun st1 h => genExpr_spec l st1 h)
      (fun st1 h => genExpr_spec r st1 h)
  | Question e =>
    simp only [genExpr]
    exact genQuestion_spec e st hwf (fun st1 h => genExpr_spec e st1 h)
  | Star e =>
    simp only [genExpr]
    exact genStar_spec e st hwf (fun st1 h => genExpr_spec e st1 h)
  | Plus e =>
    simp only [genExpr]
    exact genPlus_spec e st hwf (fun st1 h => genExpr_spec e st1 h)
  | Dot =>
    simp only [genExpr]
    exact genDot_spec st hwf
termination_by (sizeOf a, 1)

theorem genConcat_spec (xs : List Ast) : ∀ st : CodeGenerator,
    st.instructions.length = st.pc → GenOk st (genConcat xs st) := by
  intro st hwf
  cases xs with
  | nil =>
    simp only [genConcat]
    exact GenPost_refl hwf
  | cons x rest =>
    simp only [genConcat]
    split
    · next e heq =>
      have hih := genExpr_spec x st hwf
      rw [heq] at hih
      exact hih
    · next st2 heq2 =>
      have hpost : GenPost st st2 := by
        have hih := genExpr_spec x st hwf
        rw [heq2] at hih
        exact hih
      cases hres : genConcat rest st2 with
      | error e =>
        have hih := genConcat_spec rest st2 hpost.1
        rw [hres] at hih
        exact hih
      | ok st3 =>
        have hih := genConcat_spec rest st2 hpost.1
        rw [hres] at hih
        simp only [GenOk]
        exact GenPost_trans hpost hih
termination_by (sizeOf xs, 1)

end

theorem pcInc_ok_le {st : CodeGenerator} {n : Nat} {st' : CodeGenerator}
    (h : pcInc st = .ok (n, st')) : n ≤ USIZE_MAX := by
  unfold pcInc at h
  split at h
  · next m heq =>
    injection h with h'
    injection h' with h1 _
    exact h1 ▸ checkedAdd1_le heq
  · exact Except.noConfusion h

theorem generate_code_spec {ast : Ast} {prog : List Instruction}
    (h : generate_code ast = .ok prog) :
    ∃ st', genExpr ast ⟨0, []⟩ = .ok st' ∧ GenPost ⟨0, []⟩ st' ∧
      prog = st'.instructions ++ [.Match] ∧ st'.pc + 1 ≤ USIZE_MAX := by
  unfold generate_code at h
  simp only [] at h
  split at h
  · exact Except.noConfusion h
  · split at h
    · exact Except.noConfusion h
    · next st' heq =>
      split at h
      · exact Except.noConfusion h
      · next n st2 heq2 =>
        obtain ⟨hn, hst2⟩ := pcInc_ok heq2
        have hle : st'.pc + 1 ≤ USIZE_MAX := hn ▸ pcInc_ok_le heq2
        subst hn hst2
        split at h
        · exact Except.noConfusion h
        · cases h
          have hpost : GenPost ⟨0, []⟩ st' := by
            have hg := genExpr_spec ast ⟨0, []⟩ rfl
            rw [heq] at hg
            exact hg
          exact ⟨st', heq, hpost, rfl, hle⟩

theorem isMatching_no_error (ins : List Instruction) (text : List Char) (L : Nat)
    (hL : ins.length = L + 1)
    (hwf : ∀ i inst, ins[i]? = some inst → instOk L i inst)
    (hLmax : L < USIZE_MAX)
    (htext : text.length ≤ USIZE_MAX) :
    ∀ (fuel pc sp : Nat), pc ≤ L → sp ≤ text.length →
      ∀ r, isMatching ins text fuel pc sp = some r → ∃ b : Bool, r = .ok b := by
  intro fuel
  induction fuel with
  | zero =>
    intro pc sp _ _ r h
    exact Option.noConfusion h
  | succ f ih =>
    intro pc sp hpc hsp r h
    simp only [isMatching] at h
    split at h
    · next heq =>
      have := List.getElem?_eq_none_iff.mp heq
      omega
    · next c heq =>
      split at h
      · cases h
        exact ⟨false, rfl⟩
      · next cc heq2 =>
        have hsp2 : sp < text.length := lt_length_of_some heq2
        split at h
        · split at h
          · next heqA =>
            rw [checkedAdd1_of_lt (by omega)] at heqA
            exact Option.noConfusion heqA
          · next pc' heqA =>
            have hpc' : pc' = pc + 1 := checkedAdd1_eq_some heqA
            split at h
            · next heqB =>
              rw [checkedAdd1_of_lt (by omega)] at heqB
              exact Option.noConfusion heqB
            · next sp' heqB =>
              have hsp' : sp' = sp + 1 := checkedAdd1_eq_some heqB
              have hiok := hwf pc _ heq
              simp only [instOk] at hiok
              exact ih pc' sp' (by omega) (by omega) r h
        · cases h
          exact ⟨false, rfl⟩
    · cases h
      exact ⟨true, rfl⟩
    · next t heq =>
      have hiok := hwf pc _ heq
      simp only [instOk] at hiok
      exact ih t sp (by omega) hsp r h
    · next l1 l2 heq =>
      have hiok := hwf pc _ heq
      simp only [instOk] at hiok
      split at h
      · exact Option.noConfusion h
      · next e heqS =>
        obtain ⟨b, hb⟩ := ih l1 sp (by omega) hsp _ heqS
        exact Except.noConfusion hb
      · cases h
        exact ⟨true, rfl⟩
      · exact ih l2 sp (by omega) hsp r h
    · next heq =>
      split at h
      · cases h
        exact ⟨false, rfl⟩
      · next cc heq2 =>
        have hsp2 : sp < text.length := lt_length_of_some heq2
        split at h
        · next heqA =>
          rw [checkedAdd1_of_lt (by omega)] at heqA
          exact Option.noConfusion heqA
        · next pc' heqA =>
          have hpc' : pc' = pc + 1 := checkedAdd1_eq_some heqA
          split at h
          · next heqB =>
            rw [checkedAdd1_of_lt (by omega)] at heqB
            exact Option.noConfusion heqB
          · next sp' heqB =>
            have hsp' : sp' = sp + 1 := checkedAdd1_eq_some heqB
            have hiok := hwf pc _ heq
            simp only [instOk] at hiok
            exact ih pc' sp' (by omega) (by omega) r h

/-- C5 (amended): for every AST on which `generate_code` succeeds and
every text whose length admits valid indexing, any result the
backtracking execution produces — at any fuel — is `Ok(true)` or
`Ok(false)`, never an error: every program counter reached is in range
(`InstructionNotFound` is unreachable) and the checked increments of `pc`
and `sp` never overflow. (The claim's further assertion that a result is
always produced fails for nullable-body loops, see the counterexample.) -/
theorem is_match_never_errors (ast : Ast) (prog : List Instruction)
    (text : List Char) (hgen : generate_code ast = .ok prog)
    (htext : text.length ≤ USIZE_MAX) :
    ∀ fuel r, is_match prog text fuel = some r → ∃ b : Bool, r = .ok b := by
  obtain ⟨st', heq, hpost, hprog, hle⟩ := generate_code_spec hgen
  intro fuel r h
  refine isMatching_no_error prog text st'.pc ?_ ?_ (by omega) htext fuel 0 0
    (Nat.zero_le _) (Nat.zero_le _) r h
  · rw [hprog]
    simp [hpost.1]
  · intro i inst hget
    rw [hprog] at hget
    rcases Nat.lt_or_ge i st'.instructions.length with hlt | hge
    · rw [List.getElem?_append_left hlt] at hget
      exact hpost.2.2.2 i inst (Nat.zero_le _) hget
    · rw [List.getElem?_append_right hge] at hget
      cases hd : i - st'.instructions.length with
      | zero =>
        rw [hd] at hget
        cases hget
        simp [instOk]
      | succ k =>
        rw [hd] at hget
        simp at hget

/-- C5 witness: the no-error theorem applied to the compiled pattern
`"a"` on text `"a"` with fuel 10, which returns `Ok(true)`. -/
theorem is_match_never_errors_witness :
    ∃ b : Bool, (Except.ok true : Except MatchError Bool) = .ok b :=
  is_match_never_errors (.Char 'a') [.Char 'a', .Match] ['a']
    (by simp [generate_code, genExpr, genChar, genConcat, genOr, genQuestion,
      genStar, genPlus, genDot, assertInv, pcInc, pushInstr, patchSplit,
      patchJmp, checkedAdd1, USIZE_MAX])
    (by simp [USIZE_MAX]) 10 (.ok true) rfl

/-- C6: for every AST on which `generate_code` succeeds, the length of
the returned instruction sequence equals the program counter value
reached after lowering the root node, plus one — the extra slot being the
appended `Match`. -/
theorem generated_length_eq_root_pc_plus_one (ast : Ast) (st' : CodeGenerator)
    (prog : List Instruction) (hroot : genExpr ast ⟨0, []⟩ = .ok st')
    (hgen : generate_code ast = .ok prog) :
    prog.length = st'.pc + 1 := by
  obtain ⟨st2, heq, hpost, hprog, _⟩ := generate_code_spec hgen
  rw [hroot] at heq
  cases heq
  rw [hprog]
  simp [hpost.1]

/-- C6 witness: for the root `Char 'a'`, lowering ends at pc 1 and the
generated program `[Char 'a', Match]` has length 2 = 1 + 1. -/
theorem generated_length_eq_root_pc_plus_one_witness :
    List.length [Instruction.Char 'a', Instruction.Match] = 1 + 1 :=
  generated_length_eq_root_pc_plus_one (.Char 'a') ⟨1, [.Char 'a']⟩
    [.Char 'a', .Match]
    (by simp [genExpr, genChar, pushInstr, pcInc, checkedAdd1, USIZE_MAX])
    (by simp [generate_code, genExpr, genChar, genConcat, genOr, genQuestion,
      genStar, genPlus, genDot, assertInv, pcInc, pushInstr, patchSplit,
      patchJmp, checkedAdd1, USIZE_MAX])

/-- C7: the generator's `len(output) = pc` invariant: it is preserved
from entry to exit of the lowering routine for every node kind (the
lowering is `genExpr`, whose cases are char, concat, or, question, star,
plus, dot), and none of the `assert_eq!(instructions.len(), pc)`
statements that codegen.rs places at the statement boundaries of every
lowering routine (modeled as the `AssertFail` error) can ever fire — in
particular the final assertion after the `Match` is appended. -/
theorem codegen_len_eq_pc_invariant :
    (∀ (a : Ast) (st st' : CodeGenerator), st.instructions.length = st.pc →
      genExpr a st = .ok st' → st'.instructions.length = st'.pc) ∧
    (∀ (a : Ast) (st : CodeGenerator), st.instructions.length = st.pc →
      genExpr a st ≠ .error .AssertFail) ∧
    (∀ a : Ast, generate_code a ≠ .error .AssertFail) := by
  refine ⟨fun a st st' hwf h => ?_, fun a st hwf h => ?_, fun a h => ?_⟩
  · have hg := genExpr_spec a st hwf
    rw [h] at hg
    exact hg.1
  · have hg := genExpr_spec a st hwf
    rw [h] at hg
    exact hg rfl
  · unfold generate_code at h
    simp only [] at h
    split at h
    · next e heq =>
      rw [assertInv_eq_ok rfl] at heq
      exact Except.noConfusion heq
    · split at h
      · next e heq =>
        have hg := genExpr_spec a ⟨0, []⟩ rfl
        rw [heq] at hg
        injection h with h'
        exact hg (h' ▸ rfl)
      · next st' heq =>
        have hpost : GenPost ⟨0, []⟩ st' := by
          have hg := genExpr_spec a ⟨0, []⟩ rfl
          rw [heq] at hg
          exact hg
        split at h
        · next e heq2 =>
          injection h with h'
          have := pcInc_error heq2
          rw [this] at h'
          exact GenerateCodeError.noConfusion h'
        · next n st2 heq2 =>
          obtain ⟨hn, hst2⟩ := pcInc_ok heq2
          subst hn hst2
          split at h
          · next e heq3 =>
            rw [assertInv_eq_ok (by simp [pushInstr, hpost.1])] at heq3
            exact Except.noConfusion heq3
          · exact Except.noConfusion h

/-- C7 witness: the preservation part applied to lowering `Char 'a'`
from the empty initial state, whose exit state is `⟨1, [Char 'a']⟩`. -/
theorem codegen_len_eq_pc_invariant_witness :
    List.length [Instruction.Char 'a'] = 1 :=
  codegen_len_eq_pc_invariant.1 (.Char 'a') ⟨0, []⟩ ⟨1, [.Char 'a']⟩ rfl
    (by simp [genExpr, genChar, pushInstr, pcInc, checkedAdd1, USIZE_MAX])
